import Mathlib

/-!
Shallow embedding of the manufacturing data pipeline in
`src/manufacturing_pipeline.py` (a pandas batch job), together with proofs of
the specified properties of its stages.

Modelling conventions:
* A dataframe is a `List` of typed row structures; list order is row order.
* Nullable numeric columns (pandas `NaN` floats) are `Option ℚ`; pandas float
  arithmetic on non-null, finite values is modelled by exact rational
  arithmetic.
* Text cells are `Cell` (a string or a missing value); pandas `astype(str)`
  renders a missing value as the literal text "nan".
* A comparison with a null operand is false, as in pandas boolean filtering.
-/

namespace ManufacturingPipeline

/-- A raw text cell: either a string or a missing value (pandas `NaN`). -/
inductive Cell where
  | null : Cell
  | str (s : String) : Cell
deriving DecidableEq, Repr

/-- Text coercion `astype(str)` of a single cell; pandas renders a missing
value as the string "nan". -/
def cellToStr : Cell → String
  | .null => "nan"
  | .str s => s

/-- Whitespace in the sense of Python's `str.strip` and regex `\s`
(ASCII range: space, tab, newline, carriage return, vertical tab, form feed),
decided by code point. -/
def isWsB (c : Char) : Bool :=
  c.toNat == 32 || c.toNat == 9 || c.toNat == 10 || c.toNat == 13 ||
    c.toNat == 11 || c.toNat == 12

/-- Pandas `.str.strip()`: drop leading and trailing whitespace. -/
def pyStrip (s : String) : String :=
  ⟨(((s.data.dropWhile isWsB).reverse).dropWhile isWsB).reverse⟩

/-- Pandas `.str.upper()`: upper-case character by character (modelled on the
basic latin range, which is what `Char.toUpper` implements). -/
def pyUpper (s : String) : String :=
  ⟨s.data.map Char.toUpper⟩

/-- Pandas `.str.replace(r"\s+", "", regex=True)`: every maximal run of
whitespace characters is replaced by the empty string. -/
def replaceWsRuns : List Char → List Char
  | [] => []
  | c :: cs =>
    if isWsB c then replaceWsRuns (cs.dropWhile isWsB)
    else c :: replaceWsRuns cs
termination_by l => l.length
decreasing_by
  · simp only [List.length_cons]
    exact Nat.lt_succ_of_le (List.dropWhile_sublist _).length_le
  · simp only [List.length_cons]
    exact Nat.lt_succ_self _

/-- The per-value transformation of `clean_text` (source lines 39 to 45):
`astype(str).str.strip().str.upper().str.replace(r"\s+", "", regex=True)`. -/
def normString (s : String) : String :=
  ⟨replaceWsRuns (pyUpper (pyStrip s)).data⟩

/-- One cell through `clean_text`: always a string afterwards. -/
def normValue (v : Cell) : Cell :=
  .str (normString (cellToStr v))

/-- A generic row for the text-cleaning stage: an association list from column
name to cell (the schema of the table is arbitrary here). -/
abbrev Row := List (String × Cell)

/-- One row through `clean_text`: designated columns are normalized, the
others are untouched. -/
def cleanRow (cols : List String) (row : Row) : Row :=
  row.map fun p => if p.1 ∈ cols then (p.1, normValue p.2) else p

/-- Source `clean_text(df, cols)` (lines 36 to 46): copy the table and
normalize each designated column. -/
def clean_text (df : List Row) (cols : List String) : List Row :=
  df.map (cleanRow cols)

/-- The spec's own description of one normalized value (section 4.2): the text
coercion (null rendered as "NAN" after upper-casing), leading and trailing
whitespace removed, case-folded to upper, and every internal whitespace
character removed entirely. Written from the spec's words, for comparison
with the source-derived `normValue`. -/
def specNormalizedValue (v : Cell) : Cell :=
  .str ⟨((pyStrip (cellToStr v)).data.map Char.toUpper).filter fun c => !isWsB c⟩

/-! ### Character-level lemmas -/

theorem toNat_ofNat_valid {n : Nat} (h : n.isValidChar) :
    (Char.ofNat n).toNat = n := by
  rw [Char.ofNat, dif_pos h]
  rfl

theorem toUpper_eq (c : Char) :
    Char.toUpper c =
      if c.toNat ≥ 97 ∧ c.toNat ≤ 122 then Char.ofNat (c.toNat - 32) else c :=
  rfl

theorem toUpper_idem (c : Char) :
    Char.toUpper (Char.toUpper c) = Char.toUpper c := by
  by_cases h : c.toNat ≥ 97 ∧ c.toNat ≤ 122
  · have h1 : Char.toUpper c = Char.ofNat (c.toNat - 32) := by
      rw [toUpper_eq, if_pos h]
    have ht : (Char.toUpper c).toNat = c.toNat - 32 := by
      rw [h1]
      exact toNat_ofNat_valid (Or.inl (by omega))
    rw [toUpper_eq (Char.toUpper c), if_neg]
    rw [ht]
    omega
  · have h1 : Char.toUpper c = c := by rw [toUpper_eq, if_neg h]
    rw [h1, h1]

theorem isWsB_toUpper (c : Char) : isWsB (Char.toUpper c) = isWsB c := by
  by_cases h : c.toNat ≥ 97 ∧ c.toNat ≤ 122
  · have h1 : Char.toUpper c = Char.ofNat (c.toNat - 32) := by
      rw [toUpper_eq, if_pos h]
    have ht : (Char.toUpper c).toNat = c.toNat - 32 := by
      rw [h1]
      exact toNat_ofNat_valid (Or.inl (by omega))
    have h97 : 97 ≤ c.toNat := h.1
    have l : isWsB (Char.toUpper c) = false := by
      simp only [isWsB, ht, Bool.or_eq_false_iff, beq_eq_false_iff_ne, ne_eq]
      omega
    have r : isWsB c = false := by
      simp only [isWsB, Bool.or_eq_false_iff, beq_eq_false_iff_ne, ne_eq]
      omega
    rw [l, r]
  · have h1 : Char.toUpper c = c := by rw [toUpper_eq, if_neg h]
    rw [h1]

/-! ### List-level lemmas about the normalization -/

theorem filter_dropWhile (cs : List Char) :
    (cs.dropWhile isWsB).filter (fun c => !isWsB c) =
      cs.filter (fun c => !isWsB c) := by
  induction cs with
  | nil => rfl
  | cons c cs ih =>
    by_cases h : isWsB c
    · rw [List.dropWhile_cons, if_pos h, ih, List.filter_cons, if_neg (by simp [h])]
    · rw [List.dropWhile_cons, if_neg h]

/-- The source's regex replacement of whitespace runs by the empty string is
exactly the removal of every whitespace character. -/
theorem replaceWsRuns_eq_filter (l : List Char) :
    replaceWsRuns l = l.filter (fun c => !isWsB c) := by
  induction l using replaceWsRuns.induct with
  | case1 => simp [replaceWsRuns]
  | case2 c cs h ih =>
    rw [replaceWsRuns, if_pos h, ih, filter_dropWhile, List.filter_cons,
      if_neg (by simp [h])]
  | case3 c cs h ih =>
    rw [replaceWsRuns, if_neg h, ih, List.filter_cons, if_pos (by simp [h])]

theorem dropWhile_eq_self_of_not (l : List Char)
    (h : ∀ c ∈ l, isWsB c = false) : l.dropWhile isWsB = l := by
  cases l with
  | nil => rfl
  | cons c cs =>
    rw [List.dropWhile_cons, if_neg]
    simp [h c (List.mem_cons_self c cs)]

theorem pyStrip_of_no_ws (l : List Char) (h : ∀ c ∈ l, isWsB c = false) :
    pyStrip ⟨l⟩ = ⟨l⟩ := by
  simp only [pyStrip]
  rw [dropWhile_eq_self_of_not l h,
    dropWhile_eq_self_of_not l.reverse (by simpa using h), List.reverse_reverse]

theorem normString_data (s : String) :
    (normString s).data =
      ((pyStrip s).data.map Char.toUpper).filter (fun c => !isWsB c) := by
  simp only [normString, pyUpper, replaceWsRuns_eq_filter]

theorem normString_no_ws (s : String) :
    ∀ c ∈ (normString s).data, isWsB c = false := by
  intro c hc
  rw [normString_data] at hc
  have := List.of_mem_filter hc
  simpa using this

theorem normString_upper_fixed (s : String) :
    ∀ c ∈ (normString s).data, Char.toUpper c = c := by
  intro c hc
  rw [normString_data] at hc
  have hm := List.mem_of_mem_filter hc
  obtain ⟨c0, _, rfl⟩ := List.mem_map.mp hm
  exact toUpper_idem c0

theorem normString_idem (s : String) :
    normString (normString s) = normString s := by
  have hs : pyStrip (normString s) = normString s := by
    have : pyStrip ⟨(normString s).data⟩ = ⟨(normString s).data⟩ :=
      pyStrip_of_no_ws _ (normString_no_ws s)
    simpa using this
  have hu : pyUpper (normString s) = normString s := by
    simp only [pyUpper]
    have : (normString s).data.map Char.toUpper = (normString s).data := by
      rw [List.map_congr_left (normString_upper_fixed s), List.map_id']
    simp [this]
  have hf : replaceWsRuns (normString s).data = (normString s).data := by
    rw [replaceWsRuns_eq_filter]
    apply List.filter_eq_self.mpr
    intro c hc
    simp [normString_no_ws s c hc]
  calc normString (normString s)
      = ⟨replaceWsRuns (pyUpper (pyStrip (normString s))).data⟩ := rfl
    _ = ⟨replaceWsRuns (normString s).data⟩ := by rw [hs, hu]
    _ = normString s := by rw [hf]

theorem normValue_idem (v : Cell) : normValue (normValue v) = normValue v := by
  simp only [normValue, cellToStr, normString_idem]

/-! ### Line-code normalization (source lines 49 to 60) -/

/-- The fixed `LINE_MAP` dictionary of the source, as an association list. -/
def LINE_MAP : List (String × String) :=
  [("L1", "LINE01"), ("LINE-1", "LINE01"), ("LINE1", "LINE01"),
   ("L2", "LINE02"), ("LINE-2", "LINE02"), ("LINE2", "LINE02"),
   ("L3", "LINE03"), ("LINE-3", "LINE03"), ("LINE3", "LINE03")]

/-- Python `LINE_MAP.get(x, x)`: dictionary lookup with identity fallback. -/
def LINE_MAP_get (x : String) : String :=
  (LINE_MAP.lookup x).getD x

/-- A production row at the line-normalization stage: the `production_line`
column (already a cleaned string at this point of the pipeline) plus the rest
of the row, opaque here. -/
structure LineRow where
  production_line : String
  rest : String
deriving DecidableEq, Repr

/-- Source `normalize_production_lines(df)` (lines 55 to 60): map the
`production_line` column through `LINE_MAP.get(x, x)`. -/
def normalize_production_lines (df : List LineRow) : List LineRow :=
  df.map fun r => { r with production_line := LINE_MAP_get r.production_line }

/-! ### Business-rule validation (source lines 66 to 81) -/

/-- Pandas comparison `series > scalar` on one nullable value: false when the
value is null. -/
def gtB (a : Option ℚ) (b : ℚ) : Bool :=
  match a with
  | some x => decide (b < x)
  | none => false

/-- Pandas comparison `series1 >= series2` on nullable values: false when
either side is null. -/
def geB (a b : Option ℚ) : Bool :=
  match a, b with
  | some x, some y => decide (y ≤ x)
  | _, _ => false

/-- Pandas comparison `series1 <= series2` on nullable values: false when
either side is null. -/
def leB (a b : Option ℚ) : Bool :=
  match a, b with
  | some x, some y => decide (x ≤ y)
  | _, _ => false

/-- A production row at the validation stage (text columns already cleaned,
numeric columns already coerced, `downtime_minutes` already null-filled
with 0 by the entry point). -/
structure ProdRow where
  plant_id : String
  production_line : String
  product_code : Cell
  production_date : Cell
  units_produced : Option ℚ
  planned_units : Option ℚ
  downtime_minutes : ℚ
deriving DecidableEq, Repr

/-- A quality row at the validation stage. -/
structure QualRow where
  plant_id : String
  product_code : Cell
  inspection_date : Cell
  units_inspected : Option ℚ
  defect_units : Option ℚ
deriving DecidableEq, Repr

/-- Source `validate_production(df)` (lines 66 to 71). -/
def validate_production (df : List ProdRow) : List ProdRow :=
  df.filter fun r =>
    gtB r.units_produced 0 && r.planned_units.isSome &&
      geB r.planned_units r.units_produced

/-- Source `validate_quality(df)` (lines 74 to 81). -/
def validate_quality (df : List QualRow) : List QualRow :=
  df.filter fun r =>
    r.units_inspected.isSome && gtB r.units_inspected 0 &&
      r.defect_units.isSome && geB r.defect_units (some 0) &&
      leB r.defect_units r.units_inspected

/-! ### Risk scoring (source lines 171 to 190) -/

/-- The three categorical labels of `pd.cut` in `risk_scoring`. -/
inductive RiskLevel where
  | LOW : RiskLevel
  | MEDIUM : RiskLevel
  | HIGH : RiskLevel
deriving DecidableEq, Repr

/-- A row of the merged monthly table as read by `risk_scoring`: the three
KPI columns, each possibly null. -/
structure KpiRow where
  production_efficiency : Option ℚ
  defect_rate : Option ℚ
  downtime_per_unit : Option ℚ
deriving DecidableEq, Repr

/-- A `risk_scoring` output row: the input columns plus `risk_score` and
`risk_level`; a `none` level is pandas `NaN` (the value fell in no bin). -/
structure ScoredRow extends KpiRow where
  risk_score : ℚ
  risk_level : Option RiskLevel
deriving DecidableEq, Repr

/-- Pandas `Series.clip(lo, hi)` on one value. -/
def clip (lo hi x : ℚ) : ℚ :=
  min (max x lo) hi

/-- Model of `pd.cut(x, bins=[0, 30, 60, 100], labels=["LOW", "MEDIUM",
"HIGH"])` on one value: with the pandas defaults (`right=True`,
`include_lowest=False`) the bins are the left-open intervals (0, 30],
(30, 60] and (60, 100]; a value outside every bin gets no label. -/
def pdCut (x : ℚ) : Option RiskLevel :=
  if 0 < x ∧ x ≤ 30 then some .LOW
  else if 30 < x ∧ x ≤ 60 then some .MEDIUM
  else if 60 < x ∧ x ≤ 100 then some .HIGH
  else none

/-- Source `risk_scoring(df)` (lines 171 to 190): copy the table, fill null
KPIs with 0 in local series only, compute the clipped weighted score and cut
it into levels. -/
def risk_scoring (df : List KpiRow) : List ScoredRow :=
  df.map fun r =>
    let efficiency := r.production_efficiency.getD 0
    let defect_rate := r.defect_rate.getD 0
    let downtime := r.downtime_per_unit.getD 0
    let score := clip 0 100 ((1 - efficiency) * 50 + defect_rate * 30 + downtime * 20)
    { toKpiRow := r, risk_score := score, risk_level := pdCut score }

/-! ### Product-master mapping (source lines 87 to 107) -/

/-- An operational row at the mapping stage: its `product_code` column plus
the rest of the row, opaque here. -/
structure OpRow where
  product_code : Cell
  rest : String
deriving DecidableEq, Repr

/-- A product-master row. -/
structure MasterRow where
  product_code_raw : Cell
  product_code_std : Cell
  product_family : Cell
deriving DecidableEq, Repr

/-- A row of the left-joined frame before filtering. The three master
columns (`product_code_raw`, `product_code_std`, `product_family`) are
present together exactly when the join found a match; when no master row
matched, all three are null. Since the master side has been through
`clean_text`, a matched row's master columns are plain strings. -/
structure MergedRow where
  product_code : String
  rest : String
  masterCols : Option (String × String × String)
deriving DecidableEq, Repr

/-- A `map_product_master` output row: the join column `product_code_raw`
has been dropped, and the retained master columns are non-null strings. -/
structure MappedRow where
  product_code : String
  rest : String
  product_code_std : String
  product_family : String
deriving DecidableEq, Repr

/-- Pandas `df.merge(product_master, left_on="product_code",
right_on="product_code_raw", how="left")` after both sides are cleaned: each
operational row fans out to its matching master rows, or to a single row
with null master columns when nothing matches. -/
def leftJoinMaster (df : List (String × String))
    (master : List (String × String × String)) : List MergedRow :=
  df.flatMap fun r =>
    let ms := master.filter fun m => m.1 == r.1
    if ms.isEmpty then
      [{ product_code := r.1, rest := r.2, masterCols := none }]
    else
      ms.map fun m => { product_code := r.1, rest := r.2, masterCols := some m }

/-- Source `map_product_master(df, product_master)` (lines 87 to 107): clean
`product_code` on the operational side and all three columns on the master
side, left-join, keep only rows whose `product_code_std` is non-null, and
drop the `product_code_raw` column. -/
def map_product_master (df : List OpRow) (master : List MasterRow) :
    List MappedRow :=
  let dfC := df.map fun r => (normString (cellToStr r.product_code), r.rest)
  let masterC := master.map fun m =>
    (normString (cellToStr m.product_code_raw),
     normString (cellToStr m.product_code_std),
     normString (cellToStr m.product_family))
  let merged := leftJoinMaster dfC masterC
  let kept := merged.filter fun r => r.masterCols.isSome
  kept.filterMap fun r =>
    r.masterCols.map fun m =>
      { product_code := r.product_code, rest := r.rest,
        product_code_std := m.2.1, product_family := m.2.2 }

/-! ### Month alignment (source lines 113 to 117) -/

/-- Split a character list on the dash character (the separator of ISO
dates), keeping empty pieces. -/
def splitDash : List Char → List (List Char)
  | [] => [[]]
  | c :: cs =>
    match splitDash cs with
    | [] => []
    | g :: gs => if c = '-' then [] :: g :: gs else (c :: g) :: gs

/-- Read a nonempty all-digit character list as a decimal number. -/
def digitsToNat (l : List Char) : Option Nat :=
  if l ≠ [] ∧ l.all Char.isDigit then
    some (l.foldl (fun n c => 10 * n + (c.toNat - 48)) 0)
  else none

/-- Model of the external `pd.to_datetime(value, errors="coerce")` restricted
to ISO `YYYY-MM-DD` text dates (the date format of the input contract,
section 6); anything else coerces to missing (`NaT`). Only the (year, month)
pair is retained, since the pipeline truncates dates to month granularity. -/
def parse_date : Cell → Option (Nat × Nat)
  | .null => none
  | .str s =>
    match splitDash s.data with
    | [y, m, d] =>
      match digitsToNat y, digitsToNat m, digitsToNat d with
      | some yn, some mn, some dn =>
        if y.length = 4 ∧ m.length = 2 ∧ d.length = 2 ∧
            1 ≤ mn ∧ mn ≤ 12 ∧ 1 ≤ dn ∧ dn ≤ 31 then
          some (yn, mn)
        else none
      | _, _, _ => none
    | _ => none

/-- The cast `.dt.to_period("M").astype(str)` of one parsed date: a present
date becomes the "YYYY-MM" key, while a missing date (`NaT`) is rendered by
`astype(str)` as the literal string "NaT" (not as a null). -/
def monthKey : Option (Nat × Nat) → String
  | some (y, m) => toString y ++ "-" ++ (if m < 10 then "0" else "") ++ toString m
  | none => "NaT"

/-- A production row entering `add_month` (after mapping: the standardized
product columns are strings; the measures are non-null after validation). -/
structure DatedProdRow where
  plant_id : String
  production_line : String
  product_code_std : String
  product_family : String
  production_date : Cell
  units_produced : ℚ
  planned_units : ℚ
  downtime_minutes : ℚ
deriving DecidableEq, Repr

/-- A production row after `add_month`: the date column now holds the parsed
datetime (month-truncated in this model) and the `month` string column has
been added. -/
structure MonthProdRow where
  plant_id : String
  production_line : String
  product_code_std : String
  product_family : String
  production_date : Option (Nat × Nat)
  units_produced : ℚ
  planned_units : ℚ
  downtime_minutes : ℚ
  month : String
deriving DecidableEq, Repr

/-- Source `add_month(df, date_col)` (lines 113 to 117) instantiated at the
production table (`date_col = "production_date"`). -/
def add_month_production (df : List DatedProdRow) : List MonthProdRow :=
  df.map fun r =>
    { plant_id := r.plant_id, production_line := r.production_line,
      product_code_std := r.product_code_std, product_family := r.product_family,
      production_date := parse_date r.production_date,
      units_produced := r.units_produced, planned_units := r.planned_units,
      downtime_minutes := r.downtime_minutes,
      month := monthKey (parse_date r.production_date) }

/-- A quality row entering `add_month`. -/
structure DatedQualRow where
  plant_id : String
  product_code_std : String
  product_family : String
  inspection_date : Cell
  units_inspected : ℚ
  defect_units : ℚ
deriving DecidableEq, Repr

/-- A quality row after `add_month`. -/
structure MonthQualRow where
  plant_id : String
  product_code_std : String
  product_family : String
  inspection_date : Option (Nat × Nat)
  units_inspected : ℚ
  defect_units : ℚ
  month : String
deriving DecidableEq, Repr

/-- Source `add_month(df, date_col)` instantiated at the quality table
(`date_col = "inspection_date"`). -/
def add_month_quality (df : List DatedQualRow) : List MonthQualRow :=
  df.map fun r =>
    { plant_id := r.plant_id, product_code_std := r.product_code_std,
      product_family := r.product_family,
      inspection_date := parse_date r.inspection_date,
      units_inspected := r.units_inspected, defect_units := r.defect_units,
      month := monthKey (parse_date r.inspection_date) }

/-! ### Monthly aggregation (source lines 120 to 146) -/

abbrev ProdKey := String × String × String × String × String

/-- The five production grouping columns. -/
def prodKey (r : MonthProdRow) : ProdKey :=
  (r.plant_id, r.production_line, r.product_code_std, r.product_family, r.month)

/-- An aggregated monthly production row. -/
structure ProdAggRow where
  plant_id : String
  production_line : String
  product_code_std : String
  product_family : String
  month : String
  units_produced : ℚ
  planned_units : ℚ
  downtime_minutes : ℚ
deriving DecidableEq, Repr

/-- Source `aggregate_production(df)` (lines 120 to 132): group by the five
key columns and sum the three measures. All five key columns are strings at
this stage (in particular `month` is never null, so the pandas rule that a
null-keyed row is dropped never applies). Groups appear here in a canonical
order (pandas sorts group keys); the order is irrelevant to every property
proved below. -/
def aggregate_production (df : List MonthProdRow) : List ProdAggRow :=
  ((df.map prodKey).dedup).map fun k =>
    let rows := df.filter fun r => prodKey r == k
    { plant_id := k.1, production_line := k.2.1, product_code_std := k.2.2.1,
      product_family := k.2.2.2.1, month := k.2.2.2.2,
      units_produced := (rows.map fun r => r.units_produced).sum,
      planned_units := (rows.map fun r => r.planned_units).sum,
      downtime_minutes := (rows.map fun r => r.downtime_minutes).sum }

abbrev QualKey := String × String × String × String

/-- The four quality grouping columns. -/
def qualKey (r : MonthQualRow) : QualKey :=
  (r.plant_id, r.product_code_std, r.product_family, r.month)

/-- An aggregated monthly quality row. -/
structure QualAggRow where
  plant_id : String
  product_code_std : String
  product_family : String
  month : String
  units_inspected : ℚ
  defect_units : ℚ
deriving DecidableEq, Repr

/-- Source `aggregate_quality(df)` (lines 135 to 146): group by the four key
columns and sum the two measures. -/
def aggregate_quality (df : List MonthQualRow) : List QualAggRow :=
  ((df.map qualKey).dedup).map fun k =>
    let rows := df.filter fun r => qualKey r == k
    { plant_id := k.1, product_code_std := k.2.1, product_family := k.2.2.1,
      month := k.2.2.2,
      units_inspected := (rows.map fun r => r.units_inspected).sum,
      defect_units := (rows.map fun r => r.defect_units).sum }

/-! ### KPI engineering (source lines 152 to 165) -/

/-- A row of the final merged frame entering `calculate_kpis`: production
aggregates (always present) left-joined with quality aggregates (null when
no quality group matched). -/
structure FinalInRow where
  plant_id : String
  production_line : String
  product_code_std : String
  product_family : String
  month : String
  units_produced : ℚ
  planned_units : ℚ
  downtime_minutes : ℚ
  units_inspected : Option ℚ
  defect_units : Option ℚ
deriving DecidableEq, Repr

/-- A `calculate_kpis` output row. `performance_rank` is a positive integer
(pandas returns it as a float; the value is always integral). -/
structure KpiOutRow extends FinalInRow where
  production_efficiency : ℚ
  defect_rate : Option ℚ
  downtime_per_unit : ℚ
  performance_rank : Nat
deriving DecidableEq, Repr

/-- The ratio-KPI phase of `calculate_kpis` (lines 155 to 157). Division is
exact rational division; it coincides with the source's float division
whenever the denominators are nonzero (the theorems below assume the
pipeline invariant `0 < planned_units`, under which no division artifact
arises). `performance_rank` is a placeholder until the ranking phase. -/
def addRatios (r : FinalInRow) : KpiOutRow :=
  { toFinalInRow := r,
    production_efficiency := r.units_produced / r.planned_units,
    defect_rate :=
      match r.defect_units, r.units_inspected with
      | some d, some i => some (d / i)
      | _, _ => none,
    downtime_per_unit := r.downtime_minutes / r.units_produced,
    performance_rank := 0 }

/-- Pandas `rank(ascending=False, method="dense")` of the value `x` among the
group values `vals`: one more than the number of distinct group values
strictly greater than `x`. -/
def denseRankDesc (vals : List ℚ) (x : ℚ) : Nat :=
  ((vals.filter fun v => x < v).dedup).length + 1

/-- The `production_efficiency` column of the `(plant_id, month)` group of a
row, read off the ratio-annotated frame. -/
def groupEffs (rows : List KpiOutRow) (p m : String) : List ℚ :=
  (rows.filter fun x => x.plant_id == p && x.month == m).map
    fun x => x.production_efficiency

/-- Source `calculate_kpis(df)` (lines 152 to 165): add the three ratio KPIs,
then assign each row the dense descending rank of its
`production_efficiency` within its `(plant_id, month)` group. -/
def calculate_kpis (df : List FinalInRow) : List KpiOutRow :=
  let base := df.map addRatios
  base.map fun r =>
    { r with performance_rank :=
        denseRankDesc (groupEffs base r.plant_id r.month) r.production_efficiency }

/-! ### Helper lemmas -/

theorem normString_eq_filter (s : String) :
    normString s =
      ⟨((pyStrip s).data.map Char.toUpper).filter fun c => !isWsB c⟩ := by
  simp only [normString, pyUpper, replaceWsRuns_eq_filter]

theorem clip01_nonneg (x : ℚ) : 0 ≤ clip 0 100 x := by
  simp only [clip, le_min_iff, le_max_iff]
  norm_num

theorem clip01_le (x : ℚ) : clip 0 100 x ≤ 100 := by
  simp only [clip]
  exact min_le_right _ _

/-- Membership characterization for `risk_scoring` output rows. -/
theorem mem_risk_scoring {df : List KpiRow} {out : ScoredRow}
    (h : out ∈ risk_scoring df) :
    out.risk_score =
      clip 0 100 ((1 - out.production_efficiency.getD 0) * 50 +
        out.defect_rate.getD 0 * 30 + out.downtime_per_unit.getD 0 * 20) ∧
    out.risk_level = pdCut out.risk_score := by
  simp only [risk_scoring, List.mem_map] at h
  obtain ⟨r, _, rfl⟩ := h
  exact ⟨rfl, rfl⟩

/-- How `pdCut` bins a value already known to lie in [0, 100]. -/
theorem pdCut_cases {x : ℚ} (h0 : 0 ≤ x) (h100 : x ≤ 100) :
    (pdCut x = some RiskLevel.LOW ↔ 0 < x ∧ x ≤ 30) ∧
    (pdCut x = some RiskLevel.MEDIUM ↔ 30 < x ∧ x ≤ 60) ∧
    (pdCut x = some RiskLevel.HIGH ↔ 60 < x ∧ x ≤ 100) ∧
    (pdCut x = none ↔ x = 0) := by
  unfold pdCut
  split_ifs with h1 h2 h3
  · exact ⟨iff_of_true rfl h1,
      iff_of_false (by simp) (fun hc => by linarith [h1.2, hc.1]),
      iff_of_false (by simp) (fun hc => by linarith [h1.2, hc.1]),
      iff_of_false (by simp) (fun hc => by rw [hc] at h1; exact lt_irrefl 0 h1.1)⟩
  · exact ⟨iff_of_false (by simp) (fun hc => by linarith [h2.1, hc.2]),
      iff_of_true rfl h2,
      iff_of_false (by simp) (fun hc => by linarith [h2.2, hc.1]),
      iff_of_false (by simp) (fun hc => by rw [hc] at h2; linarith [h2.1])⟩
  · exact ⟨iff_of_false (by simp) (fun hc => by linarith [h3.1, hc.2]),
      iff_of_false (by simp) (fun hc => by linarith [h3.1, hc.2]),
      iff_of_true rfl h3,
      iff_of_false (by simp) (fun hc => by rw [hc] at h3; linarith [h3.1])⟩
  · have hx : x = 0 := by
      by_contra hne
      have hpos : 0 < x := lt_of_le_of_ne h0 (Ne.symm hne)
      rcases le_or_lt x 30 with h | h
      · exact h1 ⟨hpos, h⟩
      · rcases le_or_lt x 60 with h' | h'
        · exact h2 ⟨h, h'⟩
        · exact h3 ⟨h', h100⟩
    exact ⟨iff_of_false (by simp) (fun hc => by rw [hx] at hc; linarith [hc.1]),
      iff_of_false (by simp) (fun hc => by rw [hx] at hc; linarith [hc.1]),
      iff_of_false (by simp) (fun hc => by rw [hx] at hc; linarith [hc.1]),
      iff_of_true rfl hx⟩

/-! ### Claim theorems: risk scoring -/

/-- C3: every `risk_scoring` output row satisfies `0 ≤ risk_score ≤ 100`,
the score being the weighted formula over the null-filled KPI values,
clipped to [0, 100]. -/
theorem risk_score_bounded (df : List KpiRow) :
    ∀ out ∈ risk_scoring df,
      0 ≤ out.risk_score ∧ out.risk_score ≤ 100 ∧
        out.risk_score =
          clip 0 100 ((1 - out.production_efficiency.getD 0) * 50 +
            out.defect_rate.getD 0 * 30 + out.downtime_per_unit.getD 0 * 20) := by
  intro out hout
  have hc := (mem_risk_scoring hout).1
  exact ⟨hc ▸ clip01_nonneg _, hc ▸ clip01_le _, hc⟩

/-- Witness for `risk_score_bounded`: a concrete one-row table. -/
theorem risk_score_bounded_witness :
    0 ≤ (ScoredRow.mk ⟨some (1/2), some (1/2), none⟩ 40
        (some RiskLevel.MEDIUM)).risk_score ∧
      (ScoredRow.mk ⟨some (1/2), some (1/2), none⟩ 40
        (some RiskLevel.MEDIUM)).risk_score ≤ 100 := by
  have hmem : (ScoredRow.mk ⟨some (1/2), some (1/2), none⟩ 40
      (some RiskLevel.MEDIUM)) ∈ risk_scoring [⟨some (1/2), some (1/2), none⟩] := by
    have he : risk_scoring [⟨some (1/2), some (1/2), none⟩] =
        [ScoredRow.mk ⟨some (1/2), some (1/2), none⟩ 40 (some RiskLevel.MEDIUM)] := by
      simp only [risk_scoring, List.map_cons, List.map_nil, Option.getD_some,
        Option.getD_none]
      norm_num [clip, pdCut]
    rw [he]
    exact List.mem_singleton_self _
  have h := risk_score_bounded _ _ hmem
  exact ⟨h.1, h.2.1⟩

/-- C1 counterexample: a row with efficiency exactly 1 and no other risk
contribution gets `risk_score = 0`, and `pd.cut` with right-closed bins
assigns it no label at all: its `risk_level` is null, not "LOW". -/
theorem risk_level_zero_unlabelled :
    (risk_scoring [⟨some 1, none, some 0⟩]).map
        (fun r => (r.risk_score, r.risk_level)) = [(0, none)] := by
  simp only [risk_scoring, List.map_cons, List.map_nil, Option.getD_some,
    Option.getD_none]
  norm_num [clip, pdCut]

/-- C1 amended: every `risk_scoring` output row is labelled by the half-open
bins (0, 30] LOW, (30, 60] MEDIUM and (60, 100] HIGH; a row whose clipped
score is exactly 0 falls in no bin and its `risk_level` is null. -/
theorem risk_level_binning (df : List KpiRow) :
    ∀ out ∈ risk_scoring df,
      (out.risk_level = some RiskLevel.LOW ↔
        0 < out.risk_score ∧ out.risk_score ≤ 30) ∧
      (out.risk_level = some RiskLevel.MEDIUM ↔
        30 < out.risk_score ∧ out.risk_score ≤ 60) ∧
      (out.risk_level = some RiskLevel.HIGH ↔
        60 < out.risk_score ∧ out.risk_score ≤ 100) ∧
      (out.risk_level = none ↔ out.risk_score = 0) := by
  intro out hout
  obtain ⟨hs, hl⟩ := mem_risk_scoring hout
  rw [hl]
  exact pdCut_cases (hs ▸ clip01_nonneg _) (hs ▸ clip01_le _)

/-- Witness for `risk_level_binning`: the same concrete one-row table. -/
theorem risk_level_binning_witness :
    (ScoredRow.mk ⟨some (1/2), some (1/2), none⟩ 40
        (some RiskLevel.MEDIUM)).risk_level = some RiskLevel.MEDIUM := by
  have hmem : (ScoredRow.mk ⟨some (1/2), some (1/2), none⟩ 40
      (some RiskLevel.MEDIUM)) ∈ risk_scoring [⟨some (1/2), some (1/2), none⟩] := by
    have he : risk_scoring [⟨some (1/2), some (1/2), none⟩] =
        [ScoredRow.mk ⟨some (1/2), some (1/2), none⟩ 40 (some RiskLevel.MEDIUM)] := by
      simp only [risk_scoring, List.map_cons, List.map_nil, Option.getD_some,
        Option.getD_none]
      norm_num [clip, pdCut]
    rw [he]
    exact List.mem_singleton_self _
  exact ((risk_level_binning _ _ hmem).2.1).mpr (by norm_num)

/-- C9: `risk_scoring` leaves the three KPI columns of every row exactly as
in its input (nulls included); null filling happens only in the local score
computation. -/
theorem risk_scoring_preserves_kpis (df : List KpiRow) :
    (risk_scoring df).map ScoredRow.toKpiRow = df := by
  simp only [risk_scoring, List.map_map]
  show List.map (fun r => r) df = df
  exact List.map_id' df

/-! ### Claim theorems: validation -/

/-- C4: each validator retains exactly the rows satisfying its business
rule — production rows with `units_produced > 0`, a non-null `planned_units`
and `planned_units ≥ units_produced`; quality rows with a non-null positive
`units_inspected` and a non-null `defect_units` between 0 and
`units_inspected` — and silently drops the rest. -/
theorem validators_keep_exactly_valid_rows :
    (∀ (df : List ProdRow) (r : ProdRow),
        r ∈ validate_production df ↔
          r ∈ df ∧ ∃ u p, r.units_produced = some u ∧ r.planned_units = some p ∧
            0 < u ∧ u ≤ p) ∧
    (∀ (df : List QualRow) (r : QualRow),
        r ∈ validate_quality df ↔
          r ∈ df ∧ ∃ i d, r.units_inspected = some i ∧ r.defect_units = some d ∧
            0 < i ∧ 0 ≤ d ∧ d ≤ i) := by
  constructor
  · intro df r
    simp only [validate_production, List.mem_filter, Bool.and_eq_true]
    constructor
    · rintro ⟨hm, ⟨hgt, _⟩, hge⟩
      refine ⟨hm, ?_⟩
      rcases hu : r.units_produced with _ | u <;> rw [hu] at hgt hge <;>
        rcases hp : r.planned_units with _ | p <;> rw [hp] at hge <;>
        simp [gtB, geB] at hgt hge
      exact ⟨u, p, rfl, rfl, hgt, hge⟩
    · rintro ⟨hm, u, p, hu, hp, h0, hup⟩
      exact ⟨hm, ⟨by simp [gtB, hu, h0], by simp [hp]⟩,
        by simp [geB, hu, hp, hup]⟩
  · intro df r
    simp only [validate_quality, List.mem_filter, Bool.and_eq_true]
    constructor
    · rintro ⟨hm, ⟨⟨⟨_, hgt⟩, _⟩, hge0⟩, hle⟩
      refine ⟨hm, ?_⟩
      rcases hi : r.units_inspected with _ | i <;> rw [hi] at hgt hle <;>
        rcases hd : r.defect_units with _ | d <;> rw [hd] at hge0 hle <;>
        simp [gtB, geB, leB] at hgt hge0 hle
      exact ⟨i, d, rfl, rfl, hgt, hge0, hle⟩
    · rintro ⟨hm, i, d, hi, hd, h0, hd0, hdi⟩
      exact ⟨hm, ⟨⟨⟨by simp [hi], by simp [gtB, hi, h0]⟩, by simp [hd]⟩,
        by simp [geB, hd, hd0]⟩, by simp [leB, hi, hd, hdi]⟩

/-! ### Claim theorems: text normalization -/

/-- C7: `clean_text` is idempotent — cleaning a table twice over the same
designated columns gives the table cleaned once. -/
theorem clean_text_idempotent (df : List Row) (cols : List String) :
    clean_text (clean_text df cols) cols = clean_text df cols := by
  simp only [clean_text, List.map_map]
  refine List.map_congr_left fun row _ => ?_
  show cleanRow cols (cleanRow cols row) = cleanRow cols row
  simp only [cleanRow, List.map_map]
  refine List.map_congr_left fun p _ => ?_
  by_cases h : p.1 ∈ cols
  · simp [h, normValue_idem]
  · simp [h]

/-- C8: `clean_text` replaces each designated cell by its text coercion
(null becoming the literal "NAN"), trimmed, upper-cased and with every
internal whitespace character removed entirely (the source's replacement of
each whitespace run by the empty string equals outright removal);
non-designated cells are untouched. -/
theorem clean_text_value_spec :
    (∀ v : Cell, normValue v = specNormalizedValue v) ∧
    normValue Cell.null = Cell.str "NAN" ∧
    (∀ (v : Cell) (c : Char),
      c ∈ (cellToStr (normValue v)).data → isWsB c = false) ∧
    (∀ (df : List Row) (cols : List String),
      clean_text df cols =
        df.map fun row => row.map fun p =>
          if p.1 ∈ cols then (p.1, specNormalizedValue p.2) else p) := by
  refine ⟨?_, ?_, ?_, ?_⟩
  · intro v
    simp only [normValue, specNormalizedValue, normString_eq_filter]
  · rw [show normValue Cell.null = specNormalizedValue Cell.null by
      simp only [normValue, specNormalizedValue, normString_eq_filter]]
    decide
  · intro v c hc
    exact normString_no_ws (cellToStr v) c hc
  · intro df cols
    simp only [clean_text]
    refine List.map_congr_left fun row _ => ?_
    simp only [cleanRow, normValue, specNormalizedValue, normString_eq_filter]

/-- Witness for `clean_text_value_spec`: the normalized form of a concrete
messy cell contains no whitespace. -/
theorem clean_text_value_spec_witness : isWsB 'X' = false :=
  clean_text_value_spec.2.2.1 (Cell.str " x y ") 'X'
    (by rw [show normValue (Cell.str " x y ") =
          specNormalizedValue (Cell.str " x y ") from
          clean_text_value_spec.1 (Cell.str " x y ")]
        decide)

/-! ### Claim theorems: line-code mapping -/

theorem mem_of_lookup_eq_some {α β : Type} [BEq α] [LawfulBEq α]
    {l : List (α × β)} {x : α} {y : β}
    (h : l.lookup x = some y) : (x, y) ∈ l := by
  induction l with
  | nil => simp [List.lookup] at h
  | cons p l ih =>
    obtain ⟨k, b⟩ := p
    rw [List.lookup] at h
    cases hxe : x == k with
    | true =>
      rw [hxe] at h
      simp only [Option.some.injEq] at h
      rw [eq_of_beq hxe, ← h]
      exact List.mem_cons_self _ _
    | false =>
      rw [hxe] at h
      exact List.mem_cons_of_mem _ (ih h)

/-- No value of `LINE_MAP` is itself a key of `LINE_MAP`. -/
theorem LINE_MAP_values_not_keys : ∀ p ∈ LINE_MAP, LINE_MAP.lookup p.2 = none := by
  decide

theorem LINE_MAP_get_idem (x : String) :
    LINE_MAP_get (LINE_MAP_get x) = LINE_MAP_get x := by
  unfold LINE_MAP_get
  cases h : LINE_MAP.lookup x with
  | none => simp [h]
  | some y =>
    have hy := LINE_MAP_values_not_keys (x, y) (mem_of_lookup_eq_some h)
    simp only [Option.getD_some, hy, Option.getD_none]

/-- C10: the canonical codes LINE01, LINE02, LINE03 are fixed points of the
`LINE_MAP` lookup, and `normalize_production_lines` applied twice gives the
same table as applied once. -/
theorem normalize_production_lines_idempotent :
    (LINE_MAP_get "LINE01" = "LINE01" ∧ LINE_MAP_get "LINE02" = "LINE02" ∧
      LINE_MAP_get "LINE03" = "LINE03") ∧
    ∀ df : List LineRow,
      normalize_production_lines (normalize_production_lines df) =
        normalize_production_lines df := by
  refine ⟨by decide, fun df => ?_⟩
  simp only [normalize_production_lines, List.map_map]
  refine List.map_congr_left fun r _ => ?_
  simp [LINE_MAP_get_idem]

/-! ### Claim theorems: product-master mapping -/

/-- What membership in the left-joined frame tells us: the row descends from
an operational row, and its master columns, when present, come from a master
row whose (normalized) raw code equals the row's (normalized) code. -/
theorem mem_leftJoinMaster {dfC : List (String × String)}
    {masterC : List (String × String × String)} {kr : MergedRow}
    (h : kr ∈ leftJoinMaster dfC masterC) :
    (∃ rc ∈ dfC, kr.product_code = rc.1 ∧ kr.rest = rc.2) ∧
    (∀ m3, kr.masterCols = some m3 → m3 ∈ masterC ∧ m3.1 = kr.product_code) := by
  simp only [leftJoinMaster, List.mem_flatMap] at h
  obtain ⟨rc, hrc, hin⟩ := h
  by_cases hemp : (masterC.filter fun m => m.1 == rc.1).isEmpty
  · rw [if_pos hemp] at hin
    simp only [List.mem_singleton] at hin
    subst hin
    exact ⟨⟨rc, hrc, rfl, rfl⟩, fun m3 hm3 => by simp at hm3⟩
  · rw [if_neg hemp] at hin
    rw [List.mem_map] at hin
    obtain ⟨m, hm, rfl⟩ := hin
    refine ⟨⟨rc, hrc, rfl, rfl⟩, fun m3 hm3 => ?_⟩
    simp only [Option.some.injEq] at hm3
    subst hm3
    rw [List.mem_filter] at hm
    exact ⟨hm.1, by simpa using hm.2⟩

/-- C5: every `map_product_master` output row resolved its normalized
product code against some master row (so a row whose normalized code matches
no `product_code_raw` in the master never appears in the output), its master
columns are that master row's normalized values, and it descends from an
input row. The `product_code_raw` column itself is dropped: the output type
`MappedRow` has no such field. -/
theorem mapped_rows_resolve_in_master (df : List OpRow) (master : List MasterRow) :
    ∀ out ∈ map_product_master df master,
      (∃ m ∈ master,
        normString (cellToStr m.product_code_raw) = out.product_code ∧
        normString (cellToStr m.product_code_std) = out.product_code_std ∧
        normString (cellToStr m.product_family) = out.product_family) ∧
      (∃ r ∈ df,
        normString (cellToStr r.product_code) = out.product_code ∧
        r.rest = out.rest) := by
  intro out hout
  simp only [map_product_master, List.mem_filterMap, List.mem_filter] at hout
  obtain ⟨kr, ⟨hmem, _⟩, hmap⟩ := hout
  rw [Option.map_eq_some'] at hmap
  obtain ⟨m3, hcols, hout_eq⟩ := hmap
  obtain ⟨⟨rc, hrc, hpc, hrest⟩, hmc⟩ := mem_leftJoinMaster hmem
  obtain ⟨hm3mem, hm3key⟩ := hmc m3 hcols
  rw [List.mem_map] at hrc hm3mem
  obtain ⟨r, hr, rfl⟩ := hrc
  obtain ⟨m, hm, rfl⟩ := hm3mem
  subst hout_eq
  constructor
  · exact ⟨m, hm, by simp [← hm3key, hpc], rfl, rfl⟩
  · exact ⟨r, hr, hpc.symm, hrest.symm⟩

/-- Witness for `mapped_rows_resolve_in_master`: a one-row table joined
against a one-row master. -/
theorem mapped_rows_resolve_in_master_witness :
    ∃ m ∈ [MasterRow.mk (Cell.str "abc") (Cell.str "STD-ABC") (Cell.str "F1")],
      normString (cellToStr m.product_code_raw) = "ABC" ∧
      normString (cellToStr m.product_code_std) = "STD-ABC" ∧
      normString (cellToStr m.product_family) = "F1" := by
  have hEval : map_product_master
      [OpRow.mk (Cell.str " abc ") "r1"]
      [MasterRow.mk (Cell.str "abc") (Cell.str "STD-ABC") (Cell.str "F1")] =
      [MappedRow.mk "ABC" "r1" "STD-ABC" "F1"] := by
    simp only [map_product_master, leftJoinMaster, List.map_cons, List.map_nil,
      cellToStr, normString_eq_filter]
    decide
  have hmem : MappedRow.mk "ABC" "r1" "STD-ABC" "F1" ∈ map_product_master
      [OpRow.mk (Cell.str " abc ") "r1"]
      [MasterRow.mk (Cell.str "abc") (Cell.str "STD-ABC") (Cell.str "F1")] := by
    rw [hEval]
    exact List.mem_singleton_self _
  have h := (mapped_rows_resolve_in_master _ _ _ hmem).1
  exact h

/-! ### Claim theorems: month alignment and aggregation -/

/-- C2 counterexample: a production row whose date fails to parse gets the
literal month string "NaT" — not a null — and the aggregation output
contains a group keyed by that failed-parse month: the row is not
excluded. -/
theorem failed_date_forms_nat_group :
    (add_month_production
        [⟨"P1", "LINE01", "STD1", "F1", Cell.str "not a date", 5, 10, 0⟩]).map
        (fun r => r.month) = ["NaT"] ∧
    (aggregate_production (add_month_production
        [⟨"P1", "LINE01", "STD1", "F1", Cell.str "not a date", 5, 10, 0⟩])).map
        (fun r => r.month) = ["NaT"] := by
  constructor <;> decide

/-- Every row's group key yields a group in the production aggregate. -/
theorem aggregate_production_covers (df : List MonthProdRow) (r : MonthProdRow)
    (hr : r ∈ df) :
    ∃ g ∈ aggregate_production df,
      g.plant_id = r.plant_id ∧ g.production_line = r.production_line ∧
      g.product_code_std = r.product_code_std ∧
      g.product_family = r.product_family ∧ g.month = r.month := by
  refine ⟨_, List.mem_map_of_mem _
    (List.mem_dedup.mpr (List.mem_map_of_mem prodKey hr)), ?_⟩
  exact ⟨rfl, rfl, rfl, rfl, rfl⟩

/-- Every row's group key yields a group in the quality aggregate. -/
theorem aggregate_quality_covers (df : List MonthQualRow) (r : MonthQualRow)
    (hr : r ∈ df) :
    ∃ g ∈ aggregate_quality df,
      g.plant_id = r.plant_id ∧ g.product_code_std = r.product_code_std ∧
      g.product_family = r.product_family ∧ g.month = r.month := by
  refine ⟨_, List.mem_map_of_mem _
    (List.mem_dedup.mpr (List.mem_map_of_mem qualKey hr)), ?_⟩
  exact ⟨rfl, rfl, rfl, rfl⟩

/-- C2 amended: a record whose date fails to parse gets the literal month
string "NaT" (the month key is never null), and no row is excluded from the
monthly aggregation on account of its month — every row of either table,
failed-parse rows included, has its key among the output groups. -/
theorem failed_parse_rows_grouped_not_excluded
    (dfP : List DatedProdRow) (dfQ : List DatedQualRow) :
    (∀ r ∈ add_month_production dfP,
      (r.production_date = none → r.month = "NaT") ∧
      ∃ g ∈ aggregate_production (add_month_production dfP),
        g.plant_id = r.plant_id ∧ g.production_line = r.production_line ∧
        g.product_code_std = r.product_code_std ∧
        g.product_family = r.product_family ∧ g.month = r.month) ∧
    (∀ r ∈ add_month_quality dfQ,
      (r.inspection_date = none → r.month = "NaT") ∧
      ∃ g ∈ aggregate_quality (add_month_quality dfQ),
        g.plant_id = r.plant_id ∧ g.product_code_std = r.product_code_std ∧
        g.product_family = r.product_family ∧ g.month = r.month) := by
  constructor
  · intro r hr
    refine ⟨?_, aggregate_production_covers _ r hr⟩
    simp only [add_month_production, List.mem_map] at hr
    obtain ⟨r0, _, rfl⟩ := hr
    intro hnone
    simp only at hnone
    simp only [hnone, monthKey]
  · intro r hr
    refine ⟨?_, aggregate_quality_covers _ r hr⟩
    simp only [add_month_quality, List.mem_map] at hr
    obtain ⟨r0, _, rfl⟩ := hr
    intro hnone
    simp only at hnone
    simp only [hnone, monthKey]

/-- Witness for `failed_parse_rows_grouped_not_excluded`: concrete
unparseable dates on both tables. -/
theorem failed_parse_rows_grouped_witness :
    (MonthProdRow.mk "P1" "LINE01" "STD1" "F1" none 5 10 0 "NaT").month = "NaT" ∧
    (MonthQualRow.mk "P1" "STD1" "F1" none 50 25 "NaT").month = "NaT" := by
  have hP : MonthProdRow.mk "P1" "LINE01" "STD1" "F1" none 5 10 0 "NaT" ∈
      add_month_production [⟨"P1", "LINE01", "STD1", "F1", Cell.str "bad", 5, 10, 0⟩] := by
    decide
  have hQ : MonthQualRow.mk "P1" "STD1" "F1" none 50 25 "NaT" ∈
      add_month_quality [⟨"P1", "STD1", "F1", Cell.null, 50, 25⟩] := by
    decide
  have h := failed_parse_rows_grouped_not_excluded
    [⟨"P1", "LINE01", "STD1", "F1", Cell.str "bad", 5, 10, 0⟩]
    [⟨"P1", "STD1", "F1", Cell.null, 50, 25⟩]
  exact ⟨(h.1 _ hP).1 rfl, (h.2 _ hQ).1 rfl⟩

/-! ### Claim theorems: dense ranking -/

/-- The dense rank counts the distinct strictly greater values, as a
`Finset` card. -/
theorem denseRankDesc_eq_card (vals : List ℚ) (x : ℚ) :
    denseRankDesc vals x = (vals.toFinset.filter fun v => x < v).card + 1 := by
  simp only [denseRankDesc]
  congr 1
  rw [← List.card_toFinset, List.toFinset_filter]
  congr 1
  apply Finset.filter_congr
  intro v _
  simp

/-- Rank 1 is assigned exactly to the maxima of the group values. -/
theorem denseRankDesc_eq_one_iff (vals : List ℚ) (x : ℚ) :
    denseRankDesc vals x = 1 ↔ ∀ v ∈ vals, v ≤ x := by
  unfold denseRankDesc
  constructor
  · intro h v hv
    have h0 : ((vals.filter fun v => x < v).dedup).length = 0 := by omega
    rw [List.length_eq_zero, List.dedup_eq_nil, List.filter_eq_nil_iff] at h0
    have := h0 v hv
    simpa using this
  · intro h
    have h0 : (vals.filter fun v => x < v) = [] := by
      rw [List.filter_eq_nil_iff]
      intro v hv
      simpa using not_lt.mpr (h v hv)
    rw [h0]
    rfl

/-- Dense ranks have no gaps: any value ranked `r ≥ 2` is preceded by a
group value ranked `r - 1`. -/
theorem denseRankDesc_no_gap {vals : List ℚ} {x : ℚ} {r : ℕ}
    (hrank : denseRankDesc vals x = r) (hr : 2 ≤ r) :
    ∃ y ∈ vals, denseRankDesc vals y = r - 1 := by
  rw [denseRankDesc_eq_card] at hrank
  set S := vals.toFinset.filter (fun v => x < v) with hS
  have hcard : S.card = r - 1 := by omega
  have hne : S.Nonempty := Finset.card_pos.mp (by omega)
  set y := S.min' hne with hy
  have hyS : y ∈ S := Finset.min'_mem S hne
  have hyv : y ∈ vals.toFinset := (Finset.mem_filter.mp hyS).1
  have hxy : x < y := (Finset.mem_filter.mp hyS).2
  refine ⟨y, List.mem_toFinset.mp hyv, ?_⟩
  rw [denseRankDesc_eq_card]
  have heq : vals.toFinset.filter (fun v => y < v) = S.erase y := by
    ext v
    simp only [Finset.mem_filter, Finset.mem_erase, hS]
    constructor
    · rintro ⟨hv, hyv'⟩
      exact ⟨ne_of_gt hyv', hv, lt_trans hxy hyv'⟩
    · rintro ⟨hne', hv, hxv⟩
      exact ⟨hv, lt_of_le_of_ne
        (S.min'_le v (Finset.mem_filter.mpr ⟨hv, hxv⟩)) (Ne.symm hne')⟩
  rw [heq, Finset.card_erase_of_mem hyS, hcard]
  omega

/-- Membership characterization for `calculate_kpis` output rows. -/
theorem mem_calculate_kpis {df : List FinalInRow} {out : KpiOutRow}
    (h : out ∈ calculate_kpis df) :
    ∃ b ∈ df.map addRatios,
      out.plant_id = b.plant_id ∧ out.month = b.month ∧
      out.production_efficiency = b.production_efficiency ∧
      out.performance_rank =
        denseRankDesc (groupEffs (df.map addRatios) b.plant_id b.month)
          b.production_efficiency := by
  simp only [calculate_kpis, List.mem_map] at h
  obtain ⟨b, hb, rfl⟩ := h
  exact ⟨b, List.mem_map.mpr hb, rfl, rfl, rfl, rfl⟩

/-- The rank-assignment step keeps every ratio-annotated row in the output,
with its key fields and efficiency unchanged and its rank assigned from its
group. -/
theorem exists_output_row {df : List FinalInRow} {b : KpiOutRow}
    (hb : b ∈ df.map addRatios) :
    ∃ x ∈ calculate_kpis df,
      x.plant_id = b.plant_id ∧ x.month = b.month ∧
      x.production_efficiency = b.production_efficiency ∧
      x.performance_rank =
        denseRankDesc (groupEffs (df.map addRatios) b.plant_id b.month)
          b.production_efficiency := by
  refine ⟨{ b with performance_rank := (denseRankDesc (groupEffs (df.map addRatios) b.plant_id b.month) b.production_efficiency) }, ?_, rfl, rfl, rfl, rfl⟩
  simp only [calculate_kpis, List.mem_map]
  exact ⟨b, List.mem_map.mp hb, rfl⟩

/-- The group efficiencies are exactly the efficiencies of the base rows of
that group. -/
theorem mem_groupEffs {base : List KpiOutRow} {p m : String} {v : ℚ} :
    v ∈ groupEffs base p m ↔
      ∃ b ∈ base, b.plant_id = p ∧ b.month = m ∧
        b.production_efficiency = v := by
  simp only [groupEffs, List.mem_map, List.mem_filter, Bool.and_eq_true,
    beq_iff_eq]
  constructor
  · rintro ⟨b, ⟨hb, hpm⟩, rfl⟩
    exact ⟨b, hb, hpm.1, hpm.2, rfl⟩
  · rintro ⟨b, hb, hp, hm, rfl⟩
    exact ⟨b, ⟨hb, hp, hm⟩, rfl⟩

/-- C6: within each (plant_id, month) group of the `calculate_kpis` output,
`performance_rank` is the dense descending rank of `production_efficiency`:
rank 1 is held exactly by the rows of maximal efficiency in the group, rows
of equal efficiency share a rank, and every rank at least 2 is preceded by
an occupied rank (no gaps). The positivity hypothesis is the invariant of
validated, aggregated data, under which the model's exact division agrees
with the source's float division. -/
theorem performance_rank_dense (df : List FinalInRow)
    (_hp : ∀ r ∈ df, 0 < r.planned_units) :
    ∀ out ∈ calculate_kpis df,
      (out.performance_rank = 1 ↔
        ∀ x ∈ calculate_kpis df,
          x.plant_id = out.plant_id → x.month = out.month →
          x.production_efficiency ≤ out.production_efficiency) ∧
      (∀ x ∈ calculate_kpis df,
        x.plant_id = out.plant_id → x.month = out.month →
        x.production_efficiency = out.production_efficiency →
        x.performance_rank = out.performance_rank) ∧
      (2 ≤ out.performance_rank →
        ∃ y ∈ calculate_kpis df,
          y.plant_id = out.plant_id ∧ y.month = out.month ∧
          y.performance_rank = out.performance_rank - 1) := by
  intro out hout
  obtain ⟨b, hb, hplant, hmonth, heff, hrank⟩ := mem_calculate_kpis hout
  rw [← hplant, ← hmonth, ← heff] at hrank
  refine ⟨?_, ?_, ?_⟩
  · rw [hrank, denseRankDesc_eq_one_iff]
    constructor
    · intro h x hx hxp hxm
      obtain ⟨bx, hbx, hxp', hxm', hxe', _⟩ := mem_calculate_kpis hx
      exact h x.production_efficiency (mem_groupEffs.mpr
        ⟨bx, hbx, by rw [← hxp', hxp], by rw [← hxm', hxm], hxe'.symm⟩)
    · intro h v hv
      obtain ⟨bv, hbv, hbp, hbm, hbe⟩ := mem_groupEffs.mp hv
      obtain ⟨x, hxmem, hxp, hxm, hxe, _⟩ := exists_output_row hbv
      have hle := h x hxmem (by rw [hxp, hbp]) (by rw [hxm, hbm])
      rw [hxe, hbe] at hle
      exact hle
  · intro x hx hxp hxm hxe
    obtain ⟨bx, hbx, hxp', hxm', hxe', hxrank⟩ := mem_calculate_kpis hx
    rw [← hxp', ← hxm', ← hxe'] at hxrank
    rw [hxrank, hxp, hxm, hxe, hrank]
  · intro h2
    obtain ⟨yv, hyv, hyrank⟩ := denseRankDesc_no_gap hrank.symm h2
    obtain ⟨by0, hby, hbyp, hbym, hbye⟩ := mem_groupEffs.mp hyv
    obtain ⟨y, hymem, hyp, hym, hye, hyrank2⟩ := exists_output_row hby
    refine ⟨y, hymem, by rw [hyp, hbyp], by rw [hym, hbym], ?_⟩
    rw [hyrank2, hbyp, hbym, hbye, hyrank]

/-- Witness for `performance_rank_dense`: on a concrete two-row group the
full-efficiency row is ranked 1. -/
theorem performance_rank_dense_witness :
    ∃ x ∈ calculate_kpis
        [⟨"P", "L1", "S", "F", "2024-01", 1, 1, 0, none, none⟩,
         ⟨"P", "L2", "S", "F", "2024-01", 1, 2, 0, none, none⟩],
      x.performance_rank = 1 := by
  have hb : addRatios ⟨"P", "L1", "S", "F", "2024-01", 1, 1, 0, none, none⟩ ∈
      List.map addRatios
        [⟨"P", "L1", "S", "F", "2024-01", 1, 1, 0, none, none⟩,
         ⟨"P", "L2", "S", "F", "2024-01", 1, 2, 0, none, none⟩] := by
    simp
  obtain ⟨x, hxmem, _, _, hxe, _⟩ := exists_output_row hb
  refine ⟨x, hxmem, ?_⟩
  have hp0 : ∀ r ∈ [(⟨"P", "L1", "S", "F", "2024-01", 1, 1, 0, none, none⟩ : FinalInRow),
      ⟨"P", "L2", "S", "F", "2024-01", 1, 2, 0, none, none⟩], 0 < r.planned_units := by
    intro r hr
    simp only [List.mem_cons, List.mem_singleton, List.not_mem_nil, or_false] at hr
    rcases hr with rfl | rfl <;> norm_num
  have h := performance_rank_dense _ hp0 x hxmem
  apply h.1.mpr
  intro z hz _ _
  obtain ⟨bz, hbz, _, _, hze', _⟩ := mem_calculate_kpis hz
  rw [hze', hxe]
  have hcases : bz = addRatios ⟨"P", "L1", "S", "F", "2024-01", 1, 1, 0, none, none⟩ ∨
      bz = addRatios ⟨"P", "L2", "S", "F", "2024-01", 1, 2, 0, none, none⟩ := by
    simpa using hbz
  rcases hcases with rfl | rfl <;> norm_num [addRatios]

end ManufacturingPipeline
